import Mathlib

/-!
Verification development for the MnemonicDB bitemporal tuplestore
(PostgreSQL/PGlite bootstrap schema plus TypeScript client).

The SQL under verification is the "unified JSONB storage" bootstrap: a parent
relation `datoms(e, a, v_data, tx, retracted_by)` with one inherited child
table per attribute (each child carries `CHECK (a = <attr id>)`), plpgsql
functions for entity/transaction allocation, the temporal-visibility
predicate reading the session variable `mnemonic.as_of_tx`, the view
generator producing `V_current` / `V_history` / dispatching `V`, and the
INSTEAD-OF trigger functions translating row DML into datom operations.

Modelling conventions:
* All BIGINT columns hold values that are nonnegative and far below 2^63 in
  every state reachable from bootstrap (entity ids are `partition <<< 48 ||| counter`
  with partition ids 0..2 and small counters), so they are modelled as `Nat`
  and the bit operations `<<<` / `|||` are `Nat.shiftLeft` / `Nat.lor`,
  which agree with the 64-bit operations on this range.
* A JSONB value is modelled by `Val`: a JSON string, a JSON number holding an
  integer (the encoding used for int4/int8/ref values), or an opaque tagged
  payload for the value types whose precise host representation no claim
  inspects (floats, numeric, bool, timestamps, uuid, bytea, raw jsonb).
* SQL `NULL`-able columns and the session variable are `Option`s.
* A raised exception aborts the enclosing statement and rolls back its
  writes, so fallible operations return `Except String` (or `Option`) with
  no partial state on the error path.
* Each per-attribute child table is the sublist of the datom list whose `a`
  field equals that attribute's id; this is exactly the content the CHECK
  constraint permits, so a scan/UPDATE of child table `attr_X` is modelled
  by filtering on `a = X` in addition to the statement's own WHERE clause.
-/

/-- A JSONB value as stored in `v_data` (and projected into the typed
generated column `v`).  `str` is a JSON string, `num` a JSON number that is
an integer (text/ref/int encodings used by the bootstrap and the claims),
`other` an opaque value for the remaining value types, tagged with the value
type ident and the canonical text form it was converted from. -/
inductive Val where
  | str : String → Val
  | num : Int → Val
  | other : String → String → Val
deriving DecidableEq, Repr

/-- A row of the parent `datoms` relation (equivalently, of the attribute
child table identified by `a`). -/
structure Datom where
  e : Nat
  a : Nat
  v : Val
  tx : Nat
  retracted_by : Option Nat
deriving DecidableEq, Repr

/-- A row of the `partitions` relation. -/
structure Partition where
  id : Nat
  ident : String
  next_id : Nat
deriving DecidableEq, Repr

/-- The persistent state touched by the claims: the `partitions` relation,
the `transactions` relation (instants carry no claim content and are
omitted), and the datom store (all attribute child tables, distinguished by
the `a` field). -/
structure DB where
  partitions : List Partition
  transactions : List Nat
  datoms : List Datom
deriving DecidableEq, Repr

/-- `mnemonic_allocate_entity(partition_ident)`: look up the partition row by
ident (`ident` is UNIQUE, modelled by `find?`), raise `Unknown partition` if
absent, otherwise take `next_id`, bump the row found (the UPDATE matches on
the primary key `id`), and return `(p.id << 48) | next_id`. -/
def mnemonic_allocate_entity (db : DB) (partition_ident : String) :
    Except String (DB × Nat) :=
  match db.partitions.find? (fun p => p.ident = partition_ident) with
  | none => .error ("Unknown partition: " ++ partition_ident)
  | some p =>
    let new_id := p.next_id
    let parts := db.partitions.map
      (fun q => if q.id = p.id then { q with next_id := q.next_id + 1 } else q)
    .ok ({ db with partitions := parts }, (p.id <<< 48) ||| new_id)

/-- `mnemonic_new_transaction()`: allocate an id from the `tx` partition and
record it in the `transactions` relation. -/
def mnemonic_new_transaction (db : DB) : Except String (DB × Nat) :=
  match mnemonic_allocate_entity db "tx" with
  | .error msg => .error msg
  | .ok (db1, tx_id) =>
    .ok ({ db1 with transactions := db1.transactions ++ [tx_id] }, tx_id)

/-- `mnemonic_attr_id(ident)`: `SELECT e FROM attr_db_ident WHERE v = ident
AND retracted_by IS NULL LIMIT 1`.  The child table `attr_db_ident` is the
`a = 1` sublist of the datom store; `LIMIT 1` without ORDER BY is modelled
by the first matching row in store order. -/
def mnemonic_attr_id (ds : List Datom) (ident : String) : Option Nat :=
  (ds.find? (fun d =>
      d.a = 1 && d.v = Val.str ident && d.retracted_by.isNone)).map (·.e)

/-- The `TEXT → BIGINT` cast on the nonnegative decimal numerals that occur
as transaction-id settings: the denoted number on an all-digit string, and
`none` (the cast raises) otherwise.  Signs and surrounding whitespace, which
the host cast would also accept, never occur in the modelled inputs. -/
def pgTextToBigint (s : String) : Option Nat :=
  if s.data ≠ [] ∧ s.data.all (fun c => '0' ≤ c ∧ c ≤ '9') then
    some (s.data.foldl (fun n c => n * 10 + (c.toNat - 48)) 0)
  else none

/-- `mnemonic_as_of_tx_cached()`:
`NULLIF(current_setting('mnemonic.as_of_tx', true), '')::bigint`.
The session variable is threaded explicitly: `none` models an unset
variable (for which `current_setting(..., true)` yields NULL), `some s` a
variable set to the string `s`.  A set, non-empty, non-numeric string makes
the `::bigint` cast raise; that error path is modelled by `none` falling out
of `pgTextToBigint`, and the claims only range over settings on which the
cast succeeds. -/
def mnemonic_as_of_tx_cached (asOfSetting : Option String) : Option Nat :=
  match asOfSetting with
  | none => none
  | some s => if s = "" then none else pgTextToBigint s

/-- `mnemonic_datom_visible(datom_tx, datom_retracted_by)`: the CASE body of
the SQL function, reading the session variable through
`mnemonic_as_of_tx_cached`. -/
def mnemonic_datom_visible (asOfSetting : Option String)
    (datom_tx : Nat) (datom_retracted_by : Option Nat) : Bool :=
  match mnemonic_as_of_tx_cached asOfSetting with
  | none => datom_retracted_by.isNone
  | some t =>
    decide (datom_tx ≤ t) &&
      (match datom_retracted_by with
       | none => true
       | some r => decide (r > t))

/-- The WHERE filter of the first branch of a generated dispatching view `V`:
`COALESCE(NULLIF(current_setting('mnemonic.as_of_tx', true), ''), '') = ''`. -/
def mnemonic_dispatch_current_cond (asOfSetting : Option String) : Bool :=
  (match (match asOfSetting with
          | none => none
          | some s => if s = "" then none else some s) with
   | none => ""
   | some s => s) = ""

/-- The WHERE filter of the second branch of a generated dispatching view `V`:
the same COALESCE expression compared with `!= ''`. -/
def mnemonic_dispatch_history_cond (asOfSetting : Option String) : Bool :=
  (match (match asOfSetting with
          | none => none
          | some s => if s = "" then none else some s) with
   | none => ""
   | some s => s) ≠ ""

/-- The dispatching view `V`:
`SELECT * FROM V_current WHERE <cond> UNION ALL SELECT * FROM V_history
WHERE <cond'>`, for given result row lists of `V_current` and `V_history`.
The branch filters do not mention the row, so each branch contributes either
all or none of its rows. -/
def mnemonic_dispatch_view {α : Type} (asOfSetting : Option String)
    (cur hist : List α) : List α :=
  (cur.filter (fun _ => mnemonic_dispatch_current_cond asOfSetting)) ++
    (hist.filter (fun _ => mnemonic_dispatch_history_cond asOfSetting))

/-- The 13 logical value types. -/
inductive ValueType where
  | text | int4 | int8 | float4 | float8 | numeric
  | bool | timestamptz | date | uuid | bytea | jsonb | ref
deriving DecidableEq, Repr

/-- `mnemonic_to_jsonb(val, value_type)`: convert the canonical text form of
a row value to the stored JSONB representation.  Integer-typed casts
(`::integer`, `::bigint`, including `ref`) raise on non-numeric input,
modelled by `none` (negative literals do not occur in the claims and reach
the same opaque handling as other unmodelled shapes would).  The value types
whose representation no claim inspects are kept as opaque tagged payloads:
for them the SQL cast raises only on malformed text, and the claims never
exercise those inputs. -/
def mnemonic_to_jsonb (val : String) (value_type : ValueType) : Option Val :=
  match value_type with
  | .text => some (Val.str val)
  | .int4 => (pgTextToBigint val).map (fun n => Val.num (Int.ofNat n))
  | .int8 => (pgTextToBigint val).map (fun n => Val.num (Int.ofNat n))
  | .ref => (pgTextToBigint val).map (fun n => Val.num (Int.ofNat n))
  | .float4 => some (Val.other "float4" val)
  | .float8 => some (Val.other "float8" val)
  | .numeric => some (Val.other "numeric" val)
  | .bool => some (Val.other "bool" val)
  | .timestamptz => some (Val.other "timestamptz" val)
  | .date => some (Val.other "date" val)
  | .uuid => some (Val.other "uuid" val)
  | .bytea => some (Val.other "bytea" val)
  | .jsonb => some (Val.other "jsonb" val)

/-- One row of the `mnemonic_view_attributes` introspection view for a given
view name, as consumed by the generator loop and the DML triggers:
attribute ident, attribute entity id, value type, whether the cardinality is
`db.cardinality/many`, and whether the attribute is required. -/
structure ViewAttr where
  ident : String
  attrId : Nat
  valueType : ValueType
  many : Bool
  required : Bool
deriving DecidableEq, Repr

/-- The current datoms of attribute `a` for entity `e`: the rows of the
attribute child table matching `e = <e> AND retracted_by IS NULL`. -/
def currentDatoms (ds : List Datom) (a e : Nat) : List Datom :=
  ds.filter (fun d => d.a = a && d.e = e && d.retracted_by.isNone)

/-- `SELECT ARRAY_AGG(v) FROM <attr table> WHERE e = <e> AND retracted_by IS
NULL`: an aggregate over zero rows yields SQL NULL, otherwise the array of
values.  The enclosing `LEFT JOIN LATERAL … ON true` therefore always
contributes exactly one column value per outer row. -/
def lateralArrayAgg (ds : List Datom) (a e : Nat) : Option (List Val) :=
  match (currentDatoms ds a e).map (·.v) with
  | [] => none
  | vs => some vs

/-- One output column of a generated view: a scalar (possibly NULL) for a
cardinality-one attribute, or an aggregated array (NULL when no datoms) for
a cardinality-many attribute. -/
inductive Col where
  | single : Option Val → Col
  | arr : Option (List Val) → Col
deriving DecidableEq, Repr

/-- One output row of a generated `V_current` view: the anchor entity id and
the attribute columns in generator emission order. -/
structure ViewRow where
  id : Nat
  cols : List Col
deriving DecidableEq, Repr

/-- The anchor (first) step of `mnemonic_generate_view_sql` with the simple
current-state visibility check: scan the anchor attribute's child table with
`retracted_by IS NULL` (one output row per anchor datom), emit `e AS id`,
and emit the anchor's own column - its value for cardinality one, the
lateral array aggregate for cardinality many. -/
def anchorRows (ds : List Datom) (va : ViewAttr) : List ViewRow :=
  (ds.filter (fun d => d.a = va.attrId && d.retracted_by.isNone)).map
    (fun d =>
      if va.many then
        { id := d.e, cols := [Col.arr (lateralArrayAgg ds va.attrId d.e)] }
      else
        { id := d.e, cols := [Col.single (some d.v)] })

/-- One non-anchor step of `mnemonic_generate_view_sql` (simple visibility):
cardinality-one required attributes join with `INNER JOIN … ON base.e =
alias.e AND alias.retracted_by IS NULL`, cardinality-one optional attributes
with `LEFT JOIN` on the same condition, and every cardinality-many attribute
(required or optional) with `LEFT JOIN LATERAL` around the array
aggregate. -/
def stepAttr (ds : List Datom) (va : ViewAttr) (rows : List ViewRow) :
    List ViewRow :=
  if va.many then
    rows.map (fun r =>
      { r with cols := r.cols ++ [Col.arr (lateralArrayAgg ds va.attrId r.id)] })
  else if va.required then
    rows.flatMap (fun r =>
      (currentDatoms ds va.attrId r.id).map (fun d =>
        { r with cols := r.cols ++ [Col.single (some d.v)] }))
  else
    rows.flatMap (fun r =>
      match currentDatoms ds va.attrId r.id with
      | [] => [{ r with cols := r.cols ++ [Col.single none] }]
      | ms => ms.map (fun d =>
          { r with cols := r.cols ++ [Col.single (some d.v)] }))

/-- The row semantics of the `V_current` view emitted by
`mnemonic_generate_view_sql(p_view_name, …, false, …)`, as a function of the
datom store and of the attribute rows in the generator's iteration order
(`ORDER BY required DESC, attribute_ident`: required attributes first, each
group ordered by ident; the first required attribute is the anchor). -/
def mnemonic_generate_view_current (ds : List Datom) (attrs : List ViewAttr) :
    List ViewRow :=
  match attrs with
  | [] => []
  | a0 :: rest => rest.foldl (fun rows va => stepAttr ds va rows) (anchorRows ds a0)

/-- The retraction statement shared by the DML triggers:
`UPDATE <attr table a> SET retracted_by = <txId> WHERE e = <e> AND
retracted_by IS NULL` (the `a` condition is the child table's CHECK
predicate). -/
def retractCurrent (txId a e : Nat) (ds : List Datom) : List Datom :=
  ds.map (fun d =>
    if d.a = a && d.e = e && d.retracted_by.isNone then
      { d with retracted_by := some txId }
    else d)

/-- One iteration of the `mnemonic_view_update` loop for attribute `va` with
OLD/NEW column values `oldv`/`newv` (text casts): if the values are not
DISTINCT FROM each other, do nothing; otherwise retract the current datoms
of the entity in this attribute's table when the old value was non-null, and
insert one new datom when the new value is non-null. -/
def viewUpdateStep (e txId : Nat) (va : ViewAttr)
    (oldv newv : Option String) (ds : List Datom) : Except String (List Datom) :=
  if oldv = newv then .ok ds
  else
    match newv with
    | none => .ok (if oldv.isSome then retractCurrent txId va.attrId e ds else ds)
    | some s =>
      match mnemonic_to_jsonb s va.valueType with
      | none => .error ("invalid input for value type: " ++ s)
      | some jv =>
        .ok ((if oldv.isSome then retractCurrent txId va.attrId e ds else ds) ++
          [⟨e, va.attrId, jv, txId, none⟩])

/-- The `mnemonic_view_update` loop over the view's attribute rows paired
with the OLD and NEW column values. -/
def viewUpdateLoop (e txId : Nat) :
    List (ViewAttr × Option String × Option String) → List Datom →
    Except String (List Datom)
  | [], ds => .ok ds
  | (va, ov, nv) :: rest, ds =>
    match viewUpdateStep e txId va ov nv ds with
    | .error m => .error m
    | .ok ds1 => viewUpdateLoop e txId rest ds1

/-- `mnemonic_view_update` (INSTEAD-OF UPDATE trigger): allocate a fresh
transaction, then per attribute compare OLD and NEW text values and
retract/assert as `viewUpdateStep` describes.  `e` is `OLD.id`. -/
def mnemonic_view_update (db : DB) (attrs : List ViewAttr) (e : Nat)
    (oldVals newVals : List (Option String)) : Except String (DB × Nat) :=
  match mnemonic_new_transaction db with
  | .error m => .error m
  | .ok (db1, txId) =>
    match viewUpdateLoop e txId (attrs.zip (oldVals.zip newVals)) db1.datoms with
    | .error m => .error m
    | .ok ds => .ok ({ db1 with datoms := ds }, txId)

/-- `mnemonic_view_delete` (INSTEAD-OF DELETE trigger): allocate a fresh
transaction, then for each attribute of the view mark the entity's current
datoms in that attribute's table with `retracted_by = txId`. -/
def mnemonic_view_delete (db : DB) (attrs : List ViewAttr) (e : Nat) :
    Except String (DB × Nat) :=
  match mnemonic_new_transaction db with
  | .error m => .error m
  | .ok (db1, txId) =>
    .ok ({ db1 with
            datoms := attrs.foldl (fun ds va => retractCurrent txId va.attrId e ds)
              db1.datoms }, txId)

/-- The attribute-reference loop shared by `mnemonic_defined_views_insert`
and `mnemonic_defined_views_update`: for each ident, resolve it with
`mnemonic_attr_id` against the current datom store (raising
`Unknown attribute` when it resolves to nothing) and insert a ref datom
`(viewId, a, attr_id, txId)` — `a` is 11 for required attributes, 13 for
optional ones. -/
def definedViewsAttrLoop (viewId txId a : Nat) :
    List String → List Datom → Except String (List Datom)
  | [], ds => .ok ds
  | i :: rest, ds =>
    match mnemonic_attr_id ds i with
    | none => .error ("Unknown attribute: " ++ i)
    | some attrId =>
      definedViewsAttrLoop viewId txId a rest
        (ds ++ [⟨viewId, a, Val.num (Int.ofNat attrId), txId, none⟩])

/-- `mnemonic_attr_to_column(attr_ident)`:
`REPLACE(SPLIT_PART(attr_ident, '/', 2), '-', '_')` - the second
slash-separated field of the ident (empty when there is none), with hyphens
replaced by underscores.  This names the generated view's column for the
attribute. -/
def mnemonic_attr_to_column (attr_ident : String) : String :=
  ⟨((attr_ident.data.splitOn '/').getD 1 []).map
    (fun c => if c = '-' then '_' else c)⟩

/-- The column list of the `_current` / `_history` views
`mnemonic_regenerate_view` generates for a view over the given attribute
idents: `j1.e AS id` followed by one column per attribute row, named by
`mnemonic_attr_to_column`.  PostgreSQL refuses to create a relation with
two columns of the same name, so the trailing
`CALL mnemonic_regenerate_view(...)` of the view-definition triggers raises
(aborting the whole statement) exactly when this list holds a duplicate -
e.g. when the same attribute ident is listed twice, or two idents share a
column image. -/
def viewColumns (attrIdents : List String) : List String :=
  "id" :: attrIdents.map mnemonic_attr_to_column

/-- `mnemonic_defined_views_insert` (INSTEAD-OF INSERT trigger on the
`mnemonic_defined_views` admin view).  `attrs`/`optAttrs` model the
`attributes` / `optional_attributes` array columns (`none` = SQL NULL);
`array_length(x, 1) IS NULL` holds exactly for NULL and empty arrays.  On
success the trigger also executes `CALL mnemonic_regenerate_view(NEW.name)`:
the generated `CREATE VIEW` statements fail when the view's column list
holds a duplicate name, and that exception aborts the INSERT and rolls back
its datom writes (the error branch); otherwise regeneration only creates
SQL catalog views and changes no relational state modelled here.  Returns
the new view entity id. -/
def mnemonic_defined_views_insert (db : DB) (name : String)
    (attrs optAttrs : Option (List String)) (doc : Option String) :
    Except String (DB × Nat) :=
  match attrs with
  | none => .error "View must have at least one required attribute"
  | some reqList =>
    if reqList = [] then .error "View must have at least one required attribute"
    else
      match mnemonic_allocate_entity db "db" with
      | .error m => .error m
      | .ok (db1, viewId) =>
        match mnemonic_new_transaction db1 with
        | .error m => .error m
        | .ok (db2, txId) =>
          let ds0 := db2.datoms ++ [⟨viewId, 10, Val.str name, txId, none⟩]
          match definedViewsAttrLoop viewId txId 11 reqList ds0 with
          | .error m => .error m
          | .ok ds1 =>
            match definedViewsAttrLoop viewId txId 13
                (match optAttrs with | none => [] | some l => l) ds1 with
            | .error m => .error m
            | .ok ds2 =>
              let ds3 := match doc with
                | none => ds2
                | some d => ds2 ++ [⟨viewId, 12, Val.str d, txId, none⟩]
              if (viewColumns (reqList ++
                  (match optAttrs with | none => [] | some l => l))).Nodup then
                .ok ({ db2 with datoms := ds3 }, viewId)
              else .error "column specified more than once"

/-- The observable outcome of `mnemonic_regenerate_view`: either the
procedure found no attribute rows for the view, raised the NOTICE
`View % has no attributes, skipping` and returned without creating any view
object, or it generated the `_current`, `_history` and dispatching views
from the attribute rows in its iteration order (the `_current` row
semantics being `mnemonic_generate_view_current`). -/
inductive RegenOutcome where
  | skipped : RegenOutcome
  | generated : List ViewAttr → RegenOutcome
deriving DecidableEq, Repr

/-- `mnemonic_regenerate_view(p_view_name)`, as a function of the
`mnemonic_view_attributes` rows for the view in iteration order
(`ORDER BY required DESC, attribute_ident`).  With no rows the generated
select list stays empty and the procedure raises a NOTICE and returns
before any `CREATE VIEW`; otherwise it (re)creates the three views and
their triggers.  The procedure raises no exception either way. -/
def mnemonic_regenerate_view (attrRows : List ViewAttr) : RegenOutcome :=
  match attrRows with
  | [] => .skipped
  | _ => .generated attrRows

/-- The datoms inserted by the bootstrap script (`tx = 0`): the five core
schema attributes 1-5, the view-definition attributes 10-13, the value-type
enum entities 100-112, the cardinality entities 200-201 and the uniqueness
entities 210-211, in script order. -/
def bootstrapDatoms : List Datom :=
  [⟨1, 1, Val.str "db/ident", 0, none⟩,
   ⟨1, 2, Val.num 100, 0, none⟩,
   ⟨1, 3, Val.num 200, 0, none⟩,
   ⟨2, 1, Val.str "db/valueType", 0, none⟩,
   ⟨2, 2, Val.num 112, 0, none⟩,
   ⟨2, 3, Val.num 200, 0, none⟩,
   ⟨3, 1, Val.str "db/cardinality", 0, none⟩,
   ⟨3, 2, Val.num 112, 0, none⟩,
   ⟨3, 3, Val.num 200, 0, none⟩,
   ⟨4, 1, Val.str "db/unique", 0, none⟩,
   ⟨4, 2, Val.num 112, 0, none⟩,
   ⟨4, 3, Val.num 200, 0, none⟩,
   ⟨5, 1, Val.str "db/doc", 0, none⟩,
   ⟨5, 2, Val.num 100, 0, none⟩,
   ⟨5, 3, Val.num 200, 0, none⟩,
   ⟨10, 1, Val.str "db.view/ident", 0, none⟩,
   ⟨10, 2, Val.num 100, 0, none⟩,
   ⟨10, 3, Val.num 200, 0, none⟩,
   ⟨11, 1, Val.str "db.view/attributes", 0, none⟩,
   ⟨11, 2, Val.num 112, 0, none⟩,
   ⟨11, 3, Val.num 201, 0, none⟩,
   ⟨12, 1, Val.str "db.view/doc", 0, none⟩,
   ⟨12, 2, Val.num 100, 0, none⟩,
   ⟨12, 3, Val.num 200, 0, none⟩,
   ⟨13, 1, Val.str "db.view/optional-attributes", 0, none⟩,
   ⟨13, 2, Val.num 112, 0, none⟩,
   ⟨13, 3, Val.num 201, 0, none⟩,
   ⟨100, 1, Val.str "db.type/text", 0, none⟩,
   ⟨101, 1, Val.str "db.type/int4", 0, none⟩,
   ⟨102, 1, Val.str "db.type/int8", 0, none⟩,
   ⟨103, 1, Val.str "db.type/float4", 0, none⟩,
   ⟨104, 1, Val.str "db.type/float8", 0, none⟩,
   ⟨105, 1, Val.str "db.type/numeric", 0, none⟩,
   ⟨106, 1, Val.str "db.type/bool", 0, none⟩,
   ⟨107, 1, Val.str "db.type/timestamptz", 0, none⟩,
   ⟨108, 1, Val.str "db.type/date", 0, none⟩,
   ⟨109, 1, Val.str "db.type/uuid", 0, none⟩,
   ⟨110, 1, Val.str "db.type/bytea", 0, none⟩,
   ⟨111, 1, Val.str "db.type/jsonb", 0, none⟩,
   ⟨112, 1, Val.str "db.type/ref", 0, none⟩,
   ⟨200, 1, Val.str "db.cardinality/one", 0, none⟩,
   ⟨201, 1, Val.str "db.cardinality/many", 0, none⟩,
   ⟨210, 1, Val.str "db.unique/identity", 0, none⟩,
   ⟨211, 1, Val.str "db.unique/value", 0, none⟩]

/-- The bootstrapped store: the three system partitions with their final
counters (`db` advanced to 300, `tx` and `user` at 1), the bootstrap
transaction 0, and the bootstrap datoms. -/
def bootstrapDB : DB where
  partitions := [⟨0, "db", 300⟩, ⟨1, "tx", 1⟩, ⟨2, "user", 1⟩]
  transactions := [0]
  datoms := bootstrapDatoms

/-- A parameter bound to a placeholder of the client's
`UPDATE mnemonic_defined_views SET …` statement: a text value or a text
array. -/
inductive SqlParam where
  | s : String → SqlParam
  | arr : List String → SqlParam
deriving DecidableEq, Repr

/-- The SQL statement the client's `updateView` would execute: the collected
`SET` clauses and the parameters, with the view name appended last for the
`WHERE name = $<n>` clause. -/
structure UpdateViewStmt where
  setClauses : List String
  params : List SqlParam
deriving DecidableEq, Repr

/-- A patch argument of the client's `updateView` method
(`Partial<ViewDefinition>`): `none` models a field left undefined. -/
structure ViewPatch where
  name : Option String
  attributes : Option (List String)
  optionalAttributes : Option (List String)
  doc : Option String
deriving DecidableEq, Repr

/-- `MnemonicDB.updateView(name, view)`: build the `SET` clause / parameter
lists from the defined patch fields in order name, attributes,
optional_attributes, doc; if no clause was collected, return without
executing any statement (modelled by `none`), otherwise execute one UPDATE
against `mnemonic_defined_views` with the view name as last parameter. -/
def updateViewPlan (viewName : String) (patch : ViewPatch) :
    Option UpdateViewStmt :=
  let acc : List String × List SqlParam := ([], [])
  let acc := match patch.name with
    | none => acc
    | some n => (acc.1 ++ ["name = $" ++ toString (acc.1.length + 1)],
                 acc.2 ++ [SqlParam.s n])
  let acc := match patch.attributes with
    | none => acc
    | some l => (acc.1 ++ ["attributes = $" ++ toString (acc.1.length + 1)],
                 acc.2 ++ [SqlParam.arr l])
  let acc := match patch.optionalAttributes with
    | none => acc
    | some l => (acc.1 ++ ["optional_attributes = $" ++ toString (acc.1.length + 1)],
                 acc.2 ++ [SqlParam.arr l])
  let acc := match patch.doc with
    | none => acc
    | some d => (acc.1 ++ ["doc = $" ++ toString (acc.1.length + 1)],
                 acc.2 ++ [SqlParam.s d])
  if acc.1 = [] then none
  else some { setClauses := acc.1, params := acc.2 ++ [SqlParam.s viewName] }

/-- The database effect of the client's `updateView`: nothing runs when no
statement was built; otherwise the single UPDATE statement runs against the
store through whatever executor semantics `applyStmt` the host engine
provides (its row-trigger behaviour is irrelevant to the no-op case). -/
def updateViewEffect (db : DB) (plan : Option UpdateViewStmt)
    (applyStmt : DB → UpdateViewStmt → DB) : DB :=
  match plan with
  | none => db
  | some st => applyStmt db st

/-- C1: the temporal visibility predicate applied to a datom's
`(tx, retracted_by)` pair returns, when the session variable
`mnemonic.as_of_tx` is unset or the empty string, true iff `retracted_by` is
absent; and when the variable holds a value denoting transaction `T`, true
iff `tx ≤ T` and (`retracted_by` is absent or `retracted_by > T`) — for
every `tx`, every `retracted_by` and every such setting of the variable. -/
theorem mnemonic_datom_visible_correct (tx : Nat) (rb : Option Nat) :
    (∀ s : Option String, s = none ∨ s = some "" →
      (mnemonic_datom_visible s tx rb = true ↔ rb = none)) ∧
    (∀ (s : String) (T : Nat), mnemonic_as_of_tx_cached (some s) = some T →
      (mnemonic_datom_visible (some s) tx rb = true ↔
        tx ≤ T ∧ (rb = none ∨ ∃ r, rb = some r ∧ T < r))) := by
  constructor
  · intro s h
    rcases h with h | h <;> subst h <;>
      simp [mnemonic_datom_visible, mnemonic_as_of_tx_cached]
  · intro s T h
    simp only [mnemonic_datom_visible, h]
    cases rb <;> simp

/-- Witness for C1 at concrete inputs. -/
theorem mnemonic_datom_visible_correct_witness :
    (mnemonic_datom_visible (some "") 3 (some 7) = true ↔
      (some 7 : Option Nat) = none) ∧
    (mnemonic_datom_visible (some "5") 3 (some 7) = true ↔
      3 ≤ 5 ∧ ((some 7 : Option Nat) = none ∨
        ∃ r, (some 7 : Option Nat) = some r ∧ 5 < r)) :=
  ⟨(mnemonic_datom_visible_correct 3 (some 7)).1 (some "") (Or.inr rfl),
   (mnemonic_datom_visible_correct 3 (some 7)).2 "5" 5 (by decide)⟩

/-- C2: with the as-of session variable unset or empty, the dispatching view
`V` returns exactly the rows of `V_current`; and the filters of its two
UNION ALL branches are mutually exclusive for every value of the
variable. -/
theorem mnemonic_dispatch_view_correct (α : Type) (cur hist : List α)
    (s : Option String) :
    (s = none ∨ s = some "" → mnemonic_dispatch_view s cur hist = cur) ∧
    (mnemonic_dispatch_current_cond s = true ↔
      ¬ mnemonic_dispatch_history_cond s = true) := by
  constructor
  · intro h
    rcases h with h | h <;> subst h <;>
      simp [mnemonic_dispatch_view, mnemonic_dispatch_current_cond,
        mnemonic_dispatch_history_cond]
  · simp only [mnemonic_dispatch_current_cond, mnemonic_dispatch_history_cond,
      decide_eq_true_eq, decide_not]
    cases s with
    | none => simp
    | some v => by_cases hv : v = "" <;> simp [hv]

/-- Witness for C2 at concrete inputs. -/
theorem mnemonic_dispatch_view_correct_witness :
    mnemonic_dispatch_view (some "") [1, 2] [9] = [1, 2] :=
  (mnemonic_dispatch_view_correct Nat [1, 2] [9] (some "")).1 (Or.inr rfl)

/-- C6: allocating from an existing partition with numeric id `p.id` and
counter `n` returns `(p.id << 48) | n`, bumps that partition's counter to
`n + 1` while every other partition row and the rest of the state are
unchanged; in particular the first id allocated from the fresh `user`
partition of the bootstrapped store is `(2 << 48) | 1`; and allocating from
an ident no partition carries fails with the unknown-partition error (the
raised exception aborts the statement, so no counter changes). -/
theorem mnemonic_allocate_entity_correct :
    (∀ (db : DB) (pident : String) (p : Partition),
      db.partitions.find? (fun q => q.ident = pident) = some p →
      ∃ db', mnemonic_allocate_entity db pident =
          .ok (db', (p.id <<< 48) ||| p.next_id) ∧
        db'.partitions.find? (fun q => q.ident = pident) =
          some { p with next_id := p.next_id + 1 } ∧
        (∀ q ∈ db.partitions, q.id ≠ p.id → q ∈ db'.partitions) ∧
        db'.transactions = db.transactions ∧ db'.datoms = db.datoms) ∧
    (∃ db', mnemonic_allocate_entity bootstrapDB "user" =
        .ok (db', (2 <<< 48) ||| 1)) ∧
    (∀ (db : DB) (pident : String),
      (∀ q ∈ db.partitions, q.ident ≠ pident) →
      mnemonic_allocate_entity db pident =
        .error ("Unknown partition: " ++ pident)) := by
  refine ⟨?_, ?_, ?_⟩
  · intro db pident p hfind
    refine ⟨⟨db.partitions.map (fun q => if q.id = p.id then { q with next_id := q.next_id + 1 } else q), db.transactions, db.datoms⟩, ?_, ?_, ?_, rfl, rfl⟩
    · simp only [mnemonic_allocate_entity, hfind]
    · rw [List.find?_map]
      have hcomp :
          ((fun q : Partition => decide (q.ident = pident)) ∘
            (fun q : Partition =>
              if q.id = p.id then { q with next_id := q.next_id + 1 } else q)) =
          (fun q : Partition => decide (q.ident = pident)) := by
        funext q
        by_cases h : q.id = p.id <;> simp [h]
      rw [hcomp, hfind]
      simp
    · intro q hq hne
      refine List.mem_map.mpr ⟨q, hq, ?_⟩
      simp [hne]
  · exact ⟨⟨[⟨0, "db", 300⟩, ⟨1, "tx", 1⟩, ⟨2, "user", 2⟩], bootstrapDB.transactions, bootstrapDB.datoms⟩, by rfl⟩
  · intro db pident h
    have : db.partitions.find? (fun q => q.ident = pident) = none :=
      List.find?_eq_none.mpr (by intro q hq; simpa using h q hq)
    simp only [mnemonic_allocate_entity, this]

/-- Witness for C6 at the bootstrapped store. -/
theorem mnemonic_allocate_entity_correct_witness :
    (∃ db', mnemonic_allocate_entity bootstrapDB "user" =
        .ok (db', ((2 : Nat) <<< 48) ||| 1) ∧
      db'.partitions.find? (fun q => q.ident = "user") =
        some ⟨2, "user", 2⟩ ∧
      (∀ q ∈ bootstrapDB.partitions, q.id ≠ 2 → q ∈ db'.partitions) ∧
      db'.transactions = bootstrapDB.transactions ∧
      db'.datoms = bootstrapDB.datoms) ∧
    mnemonic_allocate_entity bootstrapDB "nosuch" =
      .error ("Unknown partition: " ++ "nosuch") := by
  constructor
  · exact mnemonic_allocate_entity_correct.1 bootstrapDB "user" ⟨2, "user", 1⟩
      (by decide)
  · exact mnemonic_allocate_entity_correct.2.2 bootstrapDB "nosuch" (by decide)

/-- C8: after bootstrap, the attribute-definition entities 2 (db/valueType),
3 (db/cardinality) and 4 (db/unique) each carry exactly one valueType datom
(attribute 2) whose value references entity 112; the value-type enum
entities seeded under `db/ident` with ids 100-112 end with entity 112 named
`db.type/ref` (so `mnemonic_attr_id` resolves `db.type/ref` to 112); and
entities 1 (db/ident) and 5 (db/doc) carry valueType datoms referencing
entity 100, which is named `db.type/text`. -/
theorem bootstrap_valueType_datoms :
    (bootstrapDB.datoms.filter (fun d => d.e = 2 && d.a = 2) =
      [⟨2, 2, Val.num 112, 0, none⟩]) ∧
    (bootstrapDB.datoms.filter (fun d => d.e = 3 && d.a = 2) =
      [⟨3, 2, Val.num 112, 0, none⟩]) ∧
    (bootstrapDB.datoms.filter (fun d => d.e = 4 && d.a = 2) =
      [⟨4, 2, Val.num 112, 0, none⟩]) ∧
    (bootstrapDB.datoms.filter (fun d => d.e = 1 && d.a = 2) =
      [⟨1, 2, Val.num 100, 0, none⟩]) ∧
    (bootstrapDB.datoms.filter (fun d => d.e = 5 && d.a = 2) =
      [⟨5, 2, Val.num 100, 0, none⟩]) ∧
    mnemonic_attr_id bootstrapDB.datoms "db.type/ref" = some 112 ∧
    mnemonic_attr_id bootstrapDB.datoms "db.type/text" = some 100 ∧
    ((bootstrapDB.datoms.filter
        (fun d => 100 ≤ d.e && d.e ≤ 112 && d.a = 1)).map (·.e) =
      [100, 101, 102, 103, 104, 105, 106, 107, 108, 109, 110, 111, 112]) ∧
    ((bootstrapDB.datoms.filter
        (fun d => 100 ≤ d.e && d.e ≤ 112 && d.a = 1)).getLast? =
      some ⟨112, 1, Val.str "db.type/ref", 0, none⟩) := by
  decide

/-- C10: calling the client's `updateView` with a patch in which none of
name, attributes, optionalAttributes and doc is defined builds no SET
clause, so the method returns before executing any database statement:
whatever the host engine's statement executor would do, the store (datoms,
generated views, partition counters) is left unchanged. -/
theorem updateView_empty_patch_is_noop (viewName : String) (db : DB)
    (applyStmt : DB → UpdateViewStmt → DB) :
    updateViewPlan viewName ⟨none, none, none, none⟩ = none ∧
    updateViewEffect db (updateViewPlan viewName ⟨none, none, none, none⟩)
      applyStmt = db :=
  ⟨rfl, rfl⟩

/-- Helper: a successful `mnemonic_new_transaction` appends exactly the
returned id to the `transactions` relation and leaves the datom store
unchanged. -/
theorem mnemonic_new_transaction_ok (db db' : DB) (tx : Nat)
    (h : mnemonic_new_transaction db = .ok (db', tx)) :
    db'.transactions = db.transactions ++ [tx] ∧ db'.datoms = db.datoms := by
  unfold mnemonic_new_transaction mnemonic_allocate_entity at h
  cases hfind : db.partitions.find? (fun p => p.ident = "tx") with
  | none => rw [hfind] at h; exact absurd h (by simp)
  | some p =>
    rw [hfind] at h
    simp only [Except.ok.injEq, Prod.mk.injEq] at h
    obtain ⟨hdb, htx⟩ := h
    subst hdb htx
    exact ⟨rfl, rfl⟩

/-- The pointwise effect the DELETE trigger has on one datom: mark it
retracted by `txId` exactly when its attribute is among the view's
attribute ids `as`, it belongs to the deleted entity `e` and it is current;
leave it untouched otherwise. -/
def deleteMark (txId e : Nat) (as : List Nat) (d : Datom) : Datom :=
  if as.contains d.a && d.e = e && d.retracted_by.isNone
  then { d with retracted_by := some txId } else d

/-- Helper: composing one per-attribute retraction with the pointwise mark
for the remaining attributes gives the pointwise mark for all of them. -/
theorem deleteMark_step (txId e aId : Nat) (as : List Nat) (d : Datom) :
    deleteMark txId e as
      (if d.a = aId && d.e = e && d.retracted_by.isNone
       then { d with retracted_by := some txId } else d) =
    deleteMark txId e (aId :: as) d := by
  by_cases ha : d.a = aId
  · by_cases he : d.e = e
    · cases hrb : d.retracted_by with
      | none => simp [deleteMark, ha, he, hrb]
      | some r => simp [deleteMark, ha, he, hrb]
    · simp [deleteMark, ha, he]
  · by_cases he : d.e = e
    · cases hrb : d.retracted_by with
      | none => simp [deleteMark, ha, he, hrb]
      | some r => simp [deleteMark, ha, he, hrb]
    · simp [deleteMark, ha, he]

/-- Helper: the sequential per-attribute retraction loop of the DELETE
trigger acts pointwise on the datom store as `deleteMark`. -/
theorem viewDelete_foldl_eq_map (txId e : Nat) (attrs : List ViewAttr)
    (ds : List Datom) :
    attrs.foldl (fun acc va => retractCurrent txId va.attrId e acc) ds =
    ds.map (deleteMark txId e (attrs.map (·.attrId))) := by
  induction attrs generalizing ds with
  | nil =>
    have hid : deleteMark txId e (([] : List ViewAttr).map (·.attrId)) = id := by
      funext d; simp [deleteMark]
    simp only [List.foldl_nil, hid, List.map_id]
  | cons va rest ih =>
    simp only [List.foldl_cons, List.map_cons]
    rw [ih]
    unfold retractCurrent
    rw [List.map_map]
    congr 1
    funext d
    exact deleteMark_step txId e va.attrId (rest.map (·.attrId)) d

/-- C5: a row DELETE through a generated view allocates a single fresh
transaction (recorded in `transactions`), marks every current datom of the
deleted entity whose attribute belongs to the view with
`retracted_by = txId`, and leaves every datom of an attribute outside the
view, every already-retracted datom, and every other entity's datom
completely unchanged (`deleteMark` is the identity on all of those). -/
theorem mnemonic_view_delete_correct (db : DB) (attrs : List ViewAttr)
    (e : Nat) (db' : DB) (txId : Nat)
    (h : mnemonic_view_delete db attrs e = .ok (db', txId)) :
    db'.transactions = db.transactions ++ [txId] ∧
    db'.datoms = db.datoms.map (deleteMark txId e (attrs.map (·.attrId))) := by
  unfold mnemonic_view_delete at h
  cases htx : mnemonic_new_transaction db with
  | error m => rw [htx] at h; exact absurd h (by simp)
  | ok p =>
    obtain ⟨db1, tx1⟩ := p
    rw [htx] at h
    simp only [Except.ok.injEq, Prod.mk.injEq] at h
    obtain ⟨hdb, htx1⟩ := h
    subst htx1
    obtain ⟨ht, hd⟩ := mnemonic_new_transaction_ok db db1 _ htx
    refine ⟨?_, ?_⟩
    · rw [← hdb]; exact ht
    · rw [← hdb]
      simp only
      rw [viewDelete_foldl_eq_map, hd]

/-- Witness for C5: deleting entity 7 through a view over attribute 2
(`db/valueType`) against a small store holding one current datom of entity 7
for attribute 2, one already-retracted datom of entity 7 and one datom of
another entity; only the first datom is marked. -/
theorem mnemonic_view_delete_correct_witness :
    (DB.mk [⟨0, "db", 300⟩, ⟨1, "tx", 2⟩, ⟨2, "user", 1⟩]
        [0, 281474976710657]
        [⟨7, 2, Val.num 112, 0, some 281474976710657⟩,
         ⟨7, 3, Val.num 200, 0, some 5⟩,
         ⟨8, 2, Val.num 100, 0, none⟩]).transactions =
      (DB.mk [⟨0, "db", 300⟩, ⟨1, "tx", 1⟩, ⟨2, "user", 1⟩] [0]
        [⟨7, 2, Val.num 112, 0, none⟩,
         ⟨7, 3, Val.num 200, 0, some 5⟩,
         ⟨8, 2, Val.num 100, 0, none⟩]).transactions ++ [281474976710657] ∧
    (DB.mk [⟨0, "db", 300⟩, ⟨1, "tx", 2⟩, ⟨2, "user", 1⟩]
        [0, 281474976710657]
        [⟨7, 2, Val.num 112, 0, some 281474976710657⟩,
         ⟨7, 3, Val.num 200, 0, some 5⟩,
         ⟨8, 2, Val.num 100, 0, none⟩]).datoms =
      (DB.mk [⟨0, "db", 300⟩, ⟨1, "tx", 1⟩, ⟨2, "user", 1⟩] [0]
        [⟨7, 2, Val.num 112, 0, none⟩,
         ⟨7, 3, Val.num 200, 0, some 5⟩,
         ⟨8, 2, Val.num 100, 0, none⟩]).datoms.map
        (deleteMark 281474976710657 7
          ([⟨"db/valueType", 2, ValueType.ref, false, true⟩].map
            (ViewAttr.attrId))) :=
  mnemonic_view_delete_correct
    (DB.mk [⟨0, "db", 300⟩, ⟨1, "tx", 1⟩, ⟨2, "user", 1⟩] [0]
      [⟨7, 2, Val.num 112, 0, none⟩,
       ⟨7, 3, Val.num 200, 0, some 5⟩,
       ⟨8, 2, Val.num 100, 0, none⟩])
    [⟨"db/valueType", 2, ValueType.ref, false, true⟩] 7 _ _ (by rfl)

/-- Helper: the retraction statement changes no datom of another attribute's
child table. -/
theorem retractCurrent_filter_other (txId a e b : Nat) (ds : List Datom)
    (hab : b ≠ a) :
    (retractCurrent txId a e ds).filter (fun d => d.a = b) =
      ds.filter (fun d => d.a = b) := by
  unfold retractCurrent
  rw [List.filter_map]
  have hp : ((fun d : Datom => decide (d.a = b)) ∘ fun d =>
      if d.a = a && d.e = e && d.retracted_by.isNone then
        { d with retracted_by := some txId } else d) =
      (fun d : Datom => decide (d.a = b)) := by
    funext d
    by_cases h1 : d.a = a
    · by_cases h2 : d.e = e
      · cases h3 : d.retracted_by with
        | none => simp [h1, h2, h3]
        | some r => simp [h1, h2, h3]
      · simp [h1, h2]
    · simp [h1]
  rw [hp]
  have hid : ∀ d ∈ ds.filter (fun d => decide (d.a = b)),
      (if d.a = a && d.e = e && d.retracted_by.isNone then
        { d with retracted_by := some txId } else d) = d := by
    intro d hd
    have hda : d.a = b := by simpa using (List.mem_filter.mp hd).2
    have : ¬ (d.a = a && d.e = e && d.retracted_by.isNone) = true := by
      simp [hda]; intro hba; exact absurd hba hab
    simp [this]
  calc (ds.filter (fun d => decide (d.a = b))).map (fun d =>
        if d.a = a && d.e = e && d.retracted_by.isNone then
          { d with retracted_by := some txId } else d)
      = (ds.filter (fun d => decide (d.a = b))).map id := List.map_congr_left hid
    _ = ds.filter (fun d => decide (d.a = b)) := List.map_id _

/-- Helper: the retraction statement keeps every datom of another attribute
(or another entity, or an already-retracted datom) unchanged in place. -/
theorem retractCurrent_mem_of_unaffected (txId a e : Nat) (d : Datom)
    (ds : List Datom) (hd : d ∈ ds)
    (hna : ¬ (d.a = a && d.e = e && d.retracted_by.isNone) = true) :
    d ∈ retractCurrent txId a e ds := by
  unfold retractCurrent
  exact List.mem_map.mpr ⟨d, hd, by simp [hna]⟩

/-- Helper: a successful `viewUpdateStep` for one attribute leaves the child
table of every other attribute untouched. -/
theorem viewUpdateStep_preserves_other (e txId : Nat) (va : ViewAttr)
    (ov nv : Option String) (ds ds' : List Datom) (b : Nat)
    (hb : b ≠ va.attrId)
    (h : viewUpdateStep e txId va ov nv ds = .ok ds') :
    ds'.filter (fun d => d.a = b) = ds.filter (fun d => d.a = b) := by
  unfold viewUpdateStep at h
  by_cases heq : ov = nv
  · rw [if_pos heq] at h
    simp only [Except.ok.injEq] at h
    rw [← h]
  · rw [if_neg heq] at h
    cases nv with
    | none =>
      simp only [Except.ok.injEq] at h
      rw [← h]
      by_cases hov : ov.isSome
      · rw [if_pos hov]; exact retractCurrent_filter_other txId va.attrId e b ds hb
      · rw [if_neg hov]
    | some s =>
      dsimp only at h
      cases hj : mnemonic_to_jsonb s va.valueType with
      | none => rw [hj] at h; exact absurd h (by simp)
      | some jv =>
        rw [hj] at h
        simp only [Except.ok.injEq] at h
        rw [← h, List.filter_append]
        have hb' : ¬ va.attrId = b := fun hc => hb hc.symm
        have hone : ([(⟨e, va.attrId, jv, txId, none⟩ : Datom)].filter
            (fun d => d.a = b)) = [] := by
          simp [hb']
        rw [hone, List.append_nil]
        by_cases hov : ov.isSome
        · rw [if_pos hov]; exact retractCurrent_filter_other txId va.attrId e b ds hb
        · rw [if_neg hov]

/-- Helper: a successful `viewUpdateStep` keeps every datom of another
attribute's child table in the store. -/
theorem viewUpdateStep_keeps_other_datoms (e txId : Nat) (va : ViewAttr)
    (ov nv : Option String) (ds ds' : List Datom)
    (h : viewUpdateStep e txId va ov nv ds = .ok ds') :
    ∀ d ∈ ds, d.a ≠ va.attrId → d ∈ ds' := by
  intro d hd hda
  have hmem : d ∈ retractCurrent txId va.attrId e ds :=
    retractCurrent_mem_of_unaffected txId va.attrId e d ds hd (by simp [hda])
  unfold viewUpdateStep at h
  by_cases heq : ov = nv
  · rw [if_pos heq] at h
    simp only [Except.ok.injEq] at h
    rw [← h]; exact hd
  · rw [if_neg heq] at h
    cases nv with
    | none =>
      simp only [Except.ok.injEq] at h
      rw [← h]
      by_cases hov : ov.isSome
      · rw [if_pos hov]; exact hmem
      · rw [if_neg hov]; exact hd
    | some s =>
      dsimp only at h
      cases hj : mnemonic_to_jsonb s va.valueType with
      | none => rw [hj] at h; exact absurd h (by simp)
      | some jv =>
        rw [hj] at h
        simp only [Except.ok.injEq] at h
        rw [← h]
        refine List.mem_append.mpr (Or.inl ?_)
        by_cases hov : ov.isSome
        · rw [if_pos hov]; exact hmem
        · rw [if_neg hov]; exact hd

/-- Helper: a successful run of the update loop leaves the child table of
any attribute it does not process untouched. -/
theorem viewUpdateLoop_preserves_other (e txId : Nat)
    (l : List (ViewAttr × Option String × Option String))
    (ds ds' : List Datom) (b : Nat)
    (hb : ∀ x ∈ l, x.1.attrId ≠ b)
    (h : viewUpdateLoop e txId l ds = .ok ds') :
    ds'.filter (fun d => d.a = b) = ds.filter (fun d => d.a = b) := by
  induction l generalizing ds with
  | nil =>
    unfold viewUpdateLoop at h
    simp only [Except.ok.injEq] at h
    rw [← h]
  | cons x rest ih =>
    obtain ⟨va, ov, nv⟩ := x
    unfold viewUpdateLoop at h
    cases hstep : viewUpdateStep e txId va ov nv ds with
    | error m => rw [hstep] at h; exact absurd h (by simp)
    | ok ds1 =>
      rw [hstep] at h
      have h1 := viewUpdateStep_preserves_other e txId va ov nv ds ds1 b
        (Ne.symm (hb (va, ov, nv) (List.mem_cons_self _ _))) hstep
      exact (ih ds1 (fun x hx => hb x (List.mem_cons_of_mem _ hx)) h).trans h1

/-- Helper: every datom in the output of a successful `viewUpdateStep`
either belongs to the processed attribute's table or inherits its `tx` and
`a` from a datom of the input store. -/
theorem viewUpdateStep_mem_src (e txId : Nat) (va : ViewAttr)
    (ov nv : Option String) (ds ds' : List Datom)
    (h : viewUpdateStep e txId va ov nv ds = .ok ds') :
    ∀ x ∈ ds', x.a = va.attrId ∨ ∃ d ∈ ds, x.tx = d.tx ∧ x.a = d.a := by
  have hbase : ∀ x ∈ (if ov.isSome then retractCurrent txId va.attrId e ds else ds),
      ∃ d ∈ ds, x.tx = d.tx ∧ x.a = d.a := by
    by_cases hov : ov.isSome
    · rw [if_pos hov]
      intro x hx
      unfold retractCurrent at hx
      obtain ⟨d, hd, hfd⟩ := List.mem_map.mp hx
      refine ⟨d, hd, ?_⟩
      by_cases hc : (d.a = va.attrId && d.e = e && d.retracted_by.isNone) = true
      · rw [if_pos hc] at hfd; rw [← hfd]; exact ⟨rfl, rfl⟩
      · rw [if_neg hc] at hfd; rw [← hfd]; exact ⟨rfl, rfl⟩
    · rw [if_neg hov]
      intro x hx
      exact ⟨x, hx, rfl, rfl⟩
  intro x hx
  unfold viewUpdateStep at h
  by_cases heq : ov = nv
  · rw [if_pos heq] at h
    simp only [Except.ok.injEq] at h
    subst h
    exact Or.inr ⟨x, hx, rfl, rfl⟩
  · rw [if_neg heq] at h
    cases nv with
    | none =>
      simp only [Except.ok.injEq] at h
      subst h
      exact Or.inr (hbase x hx)
    | some s =>
      dsimp only at h
      cases hj : mnemonic_to_jsonb s va.valueType with
      | none => rw [hj] at h; exact absurd h (by simp)
      | some jv =>
        rw [hj] at h
        simp only [Except.ok.injEq] at h
        subst h
        rcases List.mem_append.mp hx with hx1 | hx1
        · exact Or.inr (hbase x hx1)
        · simp only [List.mem_singleton] at hx1
          subst hx1
          exact Or.inl rfl

/-- Helper: the store the UPDATE trigger inserts into (after the optional
retraction) only contains datoms inheriting `tx` and `a` from the input. -/
theorem updateBase_mem_src (txId a e : Nat) (ov : Option String)
    (ds : List Datom) :
    ∀ x ∈ (if ov.isSome then retractCurrent txId a e ds else ds),
      ∃ d ∈ ds, x.tx = d.tx ∧ x.a = d.a := by
  by_cases hov : ov.isSome
  · rw [if_pos hov]
    intro x hx
    unfold retractCurrent at hx
    obtain ⟨d, hd, hfd⟩ := List.mem_map.mp hx
    refine ⟨d, hd, ?_⟩
    by_cases hc : (d.a = a && d.e = e && d.retracted_by.isNone) = true
    · rw [if_pos hc] at hfd; rw [← hfd]; exact ⟨rfl, rfl⟩
    · rw [if_neg hc] at hfd; rw [← hfd]; exact ⟨rfl, rfl⟩
  · rw [if_neg hov]
    intro x hx
    exact ⟨x, hx, rfl, rfl⟩

/-- Helper: with a changed value whose old side was non-null, the UPDATE
step marks every current datom of the entity in the attribute's table with
`retracted_by = txId`. -/
theorem viewUpdateStep_retracts (e txId : Nat) (va : ViewAttr)
    (ov nv : Option String) (ds ds1 : List Datom)
    (h : viewUpdateStep e txId va ov nv ds = .ok ds1)
    (hne : ov ≠ nv) (hov : ov.isSome = true) :
    ∀ d ∈ ds, d.a = va.attrId → d.e = e → d.retracted_by = none →
      { d with retracted_by := some txId } ∈ ds1 := by
  intro d hd ha he hrb
  have hmark : ({ d with retracted_by := some txId } : Datom) ∈
      retractCurrent txId va.attrId e ds := by
    unfold retractCurrent
    refine List.mem_map.mpr ⟨d, hd, ?_⟩
    have hc : (d.a = va.attrId && d.e = e && d.retracted_by.isNone) = true := by
      simp [ha, he, hrb]
    rw [if_pos hc]
  unfold viewUpdateStep at h
  rw [if_neg hne] at h
  cases nv with
  | none =>
    simp only [Except.ok.injEq] at h
    subst h
    rw [if_pos hov]
    exact hmark
  | some s =>
    dsimp only at h
    cases hj : mnemonic_to_jsonb s va.valueType with
    | none => rw [hj] at h; exact absurd h (by simp)
    | some jv =>
      rw [hj] at h
      simp only [Except.ok.injEq] at h
      subst h
      refine List.mem_append.mpr (Or.inl ?_)
      rw [if_pos hov]
      exact hmark

/-- Helper: with a changed value whose new side is non-null, the UPDATE step
leaves the attribute's child table with exactly one datom carrying the new
encoded value, the fresh transaction and no `retracted_by` — provided no
input datom of that table already carried the fresh transaction id. -/
theorem viewUpdateStep_insert_count (e txId : Nat) (va : ViewAttr)
    (ov : Option String) (s : String) (ds ds1 : List Datom) (jv : Val)
    (h : viewUpdateStep e txId va ov (some s) ds = .ok ds1)
    (hne : ov ≠ some s)
    (hj : mnemonic_to_jsonb s va.valueType = some jv)
    (hfr : ∀ d ∈ ds, d.tx = txId → d.a ≠ va.attrId) :
    ((ds1.filter (fun d => d.a = va.attrId)).filter
      (fun d => d.e = e && d.v = jv && d.tx = txId &&
        d.retracted_by.isNone)).length = 1 := by
  unfold viewUpdateStep at h
  rw [if_neg hne] at h
  dsimp only at h
  rw [hj] at h
  simp only [Except.ok.injEq] at h
  subst h
  rw [List.filter_append, List.filter_append]
  have hbase : (((if ov.isSome then retractCurrent txId va.attrId e ds else ds).filter
      (fun d => d.a = va.attrId)).filter
      (fun d => d.e = e && d.v = jv && d.tx = txId && d.retracted_by.isNone)) = [] := by
    rw [List.filter_eq_nil_iff]
    intro x hx
    have hxa : x.a = va.attrId := by
      simpa using (List.mem_filter.mp hx).2
    have hxbase := (List.mem_filter.mp hx).1
    obtain ⟨d, hd, htx, hada⟩ := updateBase_mem_src txId va.attrId e ov ds x hxbase
    have hxtx : x.tx ≠ txId := by
      intro hxt
      exact hfr d hd (htx ▸ hxt) (hada ▸ hxa)
    simp [hxtx]
  rw [hbase]
  have hnew : (([(⟨e, va.attrId, jv, txId, none⟩ : Datom)].filter
      (fun d => d.a = va.attrId)).filter
      (fun d => d.e = e && d.v = jv && d.tx = txId && d.retracted_by.isNone)) =
      [⟨e, va.attrId, jv, txId, none⟩] := by
    simp
  rw [hnew]
  simp

/-- Helper: when the OLD and NEW values are not distinct, the UPDATE step
does nothing. -/
theorem viewUpdateStep_unchanged (e txId : Nat) (va : ViewAttr)
    (ov nv : Option String) (ds ds1 : List Datom)
    (h : viewUpdateStep e txId va ov nv ds = .ok ds1) (heq : ov = nv) :
    ds1 = ds := by
  unfold viewUpdateStep at h
  rw [if_pos heq] at h
  simp only [Except.ok.injEq] at h
  exact h.symm

/-- Helper: the per-attribute effect of a successful run of the UPDATE
trigger loop, for view attribute lists without repeated attribute ids and a
transaction id fresh for the input store. -/
theorem viewUpdateLoop_effect (e txId : Nat)
    (l : List (ViewAttr × Option String × Option String))
    (ds ds' : List Datom)
    (hnodup : (l.map (fun x => x.1.attrId)).Nodup)
    (hfresh : ∀ d ∈ ds, d.tx = txId →
      ¬ ((l.map (fun x => x.1.attrId)).contains d.a = true))
    (h : viewUpdateLoop e txId l ds = .ok ds') :
    ∀ va ov nv, (va, ov, nv) ∈ l →
      (ov = nv →
        ds'.filter (fun d => d.a = va.attrId) =
          ds.filter (fun d => d.a = va.attrId)) ∧
      (ov ≠ nv →
        (ov.isSome = true →
          ∀ d ∈ ds, d.a = va.attrId → d.e = e → d.retracted_by = none →
            { d with retracted_by := some txId } ∈ ds') ∧
        (∀ s, nv = some s →
          ∃ jv, mnemonic_to_jsonb s va.valueType = some jv ∧
            ((ds'.filter (fun d => d.a = va.attrId)).filter
              (fun d => d.e = e && d.v = jv && d.tx = txId &&
                d.retracted_by.isNone)).length = 1)) := by
  induction l generalizing ds with
  | nil => intro va ov nv hm; exact absurd hm (by simp)
  | cons x rest ih =>
    obtain ⟨va0, ov0, nv0⟩ := x
    unfold viewUpdateLoop at h
    cases hstep : viewUpdateStep e txId va0 ov0 nv0 ds with
    | error m => rw [hstep] at h; exact absurd h (by simp)
    | ok ds1 =>
      rw [hstep] at h
      rw [List.map_cons] at hnodup
      have hn0 : va0.attrId ∉ rest.map (fun x => x.1.attrId) :=
        (List.nodup_cons.mp hnodup).1
      have hnrest : (rest.map (fun x => x.1.attrId)).Nodup :=
        (List.nodup_cons.mp hnodup).2
      have hrestne : ∀ y ∈ rest, y.1.attrId ≠ va0.attrId := by
        intro y hy hc
        exact hn0 (hc ▸ List.mem_map.mpr ⟨y, hy, rfl⟩)
      have hrestpres : ds'.filter (fun d => d.a = va0.attrId) =
          ds1.filter (fun d => d.a = va0.attrId) :=
        viewUpdateLoop_preserves_other e txId rest ds1 ds' va0.attrId hrestne h
      have hfresh1 : ∀ d ∈ ds1, d.tx = txId →
          ¬ ((rest.map (fun x => x.1.attrId)).contains d.a = true) := by
        intro d hd htx hcont
        rcases viewUpdateStep_mem_src e txId va0 ov0 nv0 ds ds1 hstep d hd with
          hda | ⟨d0, hd0, htx0, hada⟩
        · exact hn0 (by simpa [hda] using List.elem_iff.mp hcont)
        · refine hfresh d0 hd0 (htx0 ▸ htx) ?_
          have : d0.a ∈ rest.map (fun x => x.1.attrId) := by
            simpa [hada] using List.elem_iff.mp hcont
          simpa using List.elem_iff.mpr (List.mem_cons_of_mem _ this)
      have IH := ih ds1 hnrest hfresh1 h
      intro va ov nv hm
      rcases List.mem_cons.mp hm with hhead | htail
      · -- the head attribute
        obtain ⟨hva, hov, hnv⟩ : va = va0 ∧ ov = ov0 ∧ nv = nv0 := by
          constructor
          · exact congrArg Prod.fst hhead
          constructor
          · exact congrArg (fun p => p.2.1) hhead
          · exact congrArg (fun p => p.2.2) hhead
        subst hva hov hnv
        constructor
        · intro heq
          have hds1 := viewUpdateStep_unchanged e txId va ov nv ds ds1 hstep heq
          rw [hrestpres, hds1]
        · intro hne
          constructor
          · intro hovs d hd ha he_ hrb
            have hmark := viewUpdateStep_retracts e txId va ov nv ds ds1
              hstep hne hovs d hd ha he_ hrb
            have hmf : ({ d with retracted_by := some txId } : Datom) ∈
                ds1.filter (fun d => d.a = va.attrId) :=
              List.mem_filter.mpr ⟨hmark, by simpa using ha⟩
            rw [← hrestpres] at hmf
            exact (List.mem_filter.mp hmf).1
          · intro s hs
            subst hs
            have hjex : ∃ jv, mnemonic_to_jsonb s va.valueType = some jv := by
              unfold viewUpdateStep at hstep
              rw [if_neg hne] at hstep
              dsimp only at hstep
              cases hj : mnemonic_to_jsonb s va.valueType with
              | none => rw [hj] at hstep; exact absurd hstep (by simp)
              | some jv => exact ⟨jv, rfl⟩
            obtain ⟨jv, hj⟩ := hjex
            refine ⟨jv, hj, ?_⟩
            rw [hrestpres]
            refine viewUpdateStep_insert_count e txId va ov s ds ds1 jv
              hstep hne hj ?_
            intro d hd htx hda
            exact hfresh d hd htx (by simp [hda])
      · -- an attribute of the tail
        have hvane : va.attrId ≠ va0.attrId := hrestne (va, ov, nv) htail
        have IHv := IH va ov nv htail
        constructor
        · intro heq
          have h1 := (IHv.1) heq
          have h2 := viewUpdateStep_preserves_other e txId va0 ov0 nv0 ds ds1
            va.attrId hvane hstep
          exact h1.trans h2
        · intro hne
          constructor
          · intro hovs d hd ha he_ hrb
            have hd1 : d ∈ ds1 :=
              viewUpdateStep_keeps_other_datoms e txId va0 ov0 nv0 ds ds1
                hstep d hd (ha ▸ hvane)
            exact (IHv.2 hne).1 hovs d hd1 ha he_ hrb
          · intro s hs
            exact (IHv.2 hne).2 s hs

/-- C4: a row UPDATE through a generated view allocates a new transaction
(recorded in `transactions`); for each view attribute, paired with its OLD
and NEW column values (`attrs.zip (oldVals.zip newVals)` — one value per
view column, hence the length hypotheses), if the two values are not
DISTINCT FROM each other no datom of that attribute's table is written or
retracted; if they are distinct and the old value was non-null, every
current datom of the entity for that attribute gets `retracted_by = txId`;
and if they are distinct and the new value is non-null, that attribute's
table ends up with exactly one datom carrying the entity, the encoded new
value, the new transaction and absent `retracted_by`.  `hfresh` states that
the allocated transaction id is new to the store, which
`mnemonic_new_transaction` guarantees in every reachable state. -/
theorem mnemonic_view_update_correct (db : DB) (attrs : List ViewAttr)
    (e : Nat) (oldVals newVals : List (Option String)) (db' : DB) (txId : Nat)
    (hlen1 : attrs.length = oldVals.length)
    (hlen2 : attrs.length = newVals.length)
    (hnodup : (attrs.map (·.attrId)).Nodup)
    (hfresh : ∀ d ∈ db.datoms, d.tx ≠ txId)
    (h : mnemonic_view_update db attrs e oldVals newVals = .ok (db', txId)) :
    db'.transactions = db.transactions ++ [txId] ∧
    ∀ va ov nv, (va, ov, nv) ∈ attrs.zip (oldVals.zip newVals) →
      (ov = nv → db'.datoms.filter (fun d => d.a = va.attrId) =
        db.datoms.filter (fun d => d.a = va.attrId)) ∧
      (ov ≠ nv →
        (ov.isSome = true →
          ∀ d ∈ db.datoms, d.a = va.attrId → d.e = e → d.retracted_by = none →
            { d with retracted_by := some txId } ∈ db'.datoms) ∧
        (∀ s, nv = some s →
          ∃ jv, mnemonic_to_jsonb s va.valueType = some jv ∧
            ((db'.datoms.filter (fun d => d.a = va.attrId)).filter
              (fun d => d.e = e && d.v = jv && d.tx = txId &&
                d.retracted_by.isNone)).length = 1)) := by
  unfold mnemonic_view_update at h
  cases htx : mnemonic_new_transaction db with
  | error m => rw [htx] at h; exact absurd h (by simp)
  | ok p =>
    obtain ⟨db1, tx1⟩ := p
    rw [htx] at h
    dsimp only at h
    cases hloop : viewUpdateLoop e tx1 (attrs.zip (oldVals.zip newVals))
        db1.datoms with
    | error m => rw [hloop] at h; exact absurd h (by simp)
    | ok ds =>
      rw [hloop] at h
      simp only [Except.ok.injEq, Prod.mk.injEq] at h
      obtain ⟨hdb, htx1⟩ := h
      subst htx1
      obtain ⟨ht, hd⟩ := mnemonic_new_transaction_ok db db1 _ htx
      have hzipids : (attrs.zip (oldVals.zip newVals)).map
          (fun x => x.1.attrId) = attrs.map (·.attrId) := by
        have hf : (attrs.zip (oldVals.zip newVals)).map Prod.fst = attrs :=
          List.map_fst_zip _ _ (by
            rw [List.length_zip, ← hlen1, ← hlen2]
            simp)
        calc (attrs.zip (oldVals.zip newVals)).map (fun x => x.1.attrId)
            = ((attrs.zip (oldVals.zip newVals)).map Prod.fst).map
                (·.attrId) := by rw [List.map_map]; rfl
          _ = attrs.map (·.attrId) := by rw [hf]
      rw [hd] at hloop
      have heffect := viewUpdateLoop_effect e tx1
        (attrs.zip (oldVals.zip newVals)) db.datoms ds
        (by rw [hzipids]; exact hnodup)
        (by intro d hmem htxe; exact absurd htxe (hfresh d hmem))
        hloop
      refine ⟨by rw [← hdb]; exact ht, ?_⟩
      intro va ov nv hm
      have := heffect va ov nv hm
      rw [← hdb]
      exact this

/-- Witness for C4: updating entity 9's `user/name` from "Alice" to "Alicia"
while `user/email` stays "a@x", against a small store. -/
theorem mnemonic_view_update_correct_witness :
    (DB.mk [⟨0, "db", 300⟩, ⟨1, "tx", 2⟩, ⟨2, "user", 1⟩]
        [0, 281474976710657]
        [⟨9, 301, Val.str "Alice", 100, some 281474976710657⟩,
         ⟨9, 302, Val.str "a@x", 100, none⟩,
         ⟨9, 301, Val.str "Alicia", 281474976710657, none⟩]).transactions =
      (DB.mk [⟨0, "db", 300⟩, ⟨1, "tx", 1⟩, ⟨2, "user", 1⟩] [0]
        [⟨9, 301, Val.str "Alice", 100, none⟩,
         ⟨9, 302, Val.str "a@x", 100, none⟩]).transactions ++
        [281474976710657] ∧
    ∀ va ov nv, (va, ov, nv) ∈
        ([⟨"user/name", 301, ValueType.text, false, true⟩,
          ⟨"user/email", 302, ValueType.text, false, true⟩] :
          List ViewAttr).zip
          (([some "Alice", some "a@x"] : List (Option String)).zip
            ([some "Alicia", some "a@x"] : List (Option String))) →
      (ov = nv →
        (DB.mk [⟨0, "db", 300⟩, ⟨1, "tx", 2⟩, ⟨2, "user", 1⟩]
          [0, 281474976710657]
          [⟨9, 301, Val.str "Alice", 100, some 281474976710657⟩,
           ⟨9, 302, Val.str "a@x", 100, none⟩,
           ⟨9, 301, Val.str "Alicia", 281474976710657, none⟩]).datoms.filter
            (fun d => d.a = va.attrId) =
          (DB.mk [⟨0, "db", 300⟩, ⟨1, "tx", 1⟩, ⟨2, "user", 1⟩] [0]
            [⟨9, 301, Val.str "Alice", 100, none⟩,
             ⟨9, 302, Val.str "a@x", 100, none⟩]).datoms.filter
            (fun d => d.a = va.attrId)) ∧
      (ov ≠ nv →
        (ov.isSome = true →
          ∀ d ∈ (DB.mk [⟨0, "db", 300⟩, ⟨1, "tx", 1⟩, ⟨2, "user", 1⟩] [0]
              [⟨9, 301, Val.str "Alice", 100, none⟩,
               ⟨9, 302, Val.str "a@x", 100, none⟩]).datoms,
            d.a = va.attrId → d.e = 9 → d.retracted_by = none →
              { d with retracted_by := some 281474976710657 } ∈
                (DB.mk [⟨0, "db", 300⟩, ⟨1, "tx", 2⟩, ⟨2, "user", 1⟩]
                  [0, 281474976710657]
                  [⟨9, 301, Val.str "Alice", 100, some 281474976710657⟩,
                   ⟨9, 302, Val.str "a@x", 100, none⟩,
                   ⟨9, 301, Val.str "Alicia", 281474976710657, none⟩]).datoms) ∧
        (∀ s, nv = some s →
          ∃ jv, mnemonic_to_jsonb s va.valueType = some jv ∧
            (((DB.mk [⟨0, "db", 300⟩, ⟨1, "tx", 2⟩, ⟨2, "user", 1⟩]
                [0, 281474976710657]
                [⟨9, 301, Val.str "Alice", 100, some 281474976710657⟩,
                 ⟨9, 302, Val.str "a@x", 100, none⟩,
                 ⟨9, 301, Val.str "Alicia", 281474976710657, none⟩]).datoms.filter
                  (fun d => d.a = va.attrId)).filter
              (fun d => d.e = 9 && d.v = jv && d.tx = 281474976710657 &&
                d.retracted_by.isNone)).length = 1)) :=
  mnemonic_view_update_correct
    (DB.mk [⟨0, "db", 300⟩, ⟨1, "tx", 1⟩, ⟨2, "user", 1⟩] [0]
      [⟨9, 301, Val.str "Alice", 100, none⟩,
       ⟨9, 302, Val.str "a@x", 100, none⟩])
    [⟨"user/name", 301, ValueType.text, false, true⟩,
     ⟨"user/email", 302, ValueType.text, false, true⟩]
    9 [some "Alice", some "a@x"] [some "Alicia", some "a@x"] _ _
    (by decide) (by decide) (by decide) (by decide) (by rfl)

/-- Helper: appending datoms outside the `attr_db_ident` table (any `a ≠ 1`)
does not change any ident lookup. -/
theorem mnemonic_attr_id_append (ds extra : List Datom) (ident : String)
    (hx : ∀ d ∈ extra, d.a ≠ 1) :
    mnemonic_attr_id (ds ++ extra) ident = mnemonic_attr_id ds ident := by
  unfold mnemonic_attr_id
  rw [List.find?_append]
  have hnone : extra.find? (fun d =>
      d.a = 1 && d.v = Val.str ident && d.retracted_by.isNone) = none := by
    rw [List.find?_eq_none]
    intro d hd
    simp [hx d hd]
  rw [hnone]
  cases ds.find? (fun d =>
      d.a = 1 && d.v = Val.str ident && d.retracted_by.isNone) <;> rfl

/-- Helper: if some ident in the list resolves to no attribute definition,
the attribute-reference loop raises `Unknown attribute` for such an ident
(the first failing one), for ref-datom targets outside the ident table. -/
theorem definedViewsAttrLoop_unknown (viewId txId a : Nat) (ha : a ≠ 1)
    (l : List String) (ds : List Datom)
    (hex : ∃ i ∈ l, mnemonic_attr_id ds i = none) :
    ∃ j ∈ l, mnemonic_attr_id ds j = none ∧
      definedViewsAttrLoop viewId txId a l ds =
        .error ("Unknown attribute: " ++ j) := by
  induction l generalizing ds with
  | nil => obtain ⟨i, hi, _⟩ := hex; exact absurd hi (by simp)
  | cons i rest ih =>
    cases hlook : mnemonic_attr_id ds i with
    | none =>
      refine ⟨i, List.mem_cons_self _ _, hlook, ?_⟩
      unfold definedViewsAttrLoop
      rw [hlook]
    | some attrId =>
      have hexrest : ∃ j ∈ rest, mnemonic_attr_id ds j = none := by
        obtain ⟨i0, hi0, hl0⟩ := hex
        rcases List.mem_cons.mp hi0 with h0 | h0
        · subst h0; exact absurd hl0 (by rw [hlook]; simp)
        · exact ⟨i0, h0, hl0⟩
      have happ : ∀ j, mnemonic_attr_id
          (ds ++ [⟨viewId, a, Val.num (Int.ofNat attrId), txId, none⟩]) j =
          mnemonic_attr_id ds j := by
        intro j
        exact mnemonic_attr_id_append ds _ j (by simp [ha])
      obtain ⟨j, hj, hjn, hjl⟩ := ih
        (ds ++ [⟨viewId, a, Val.num (Int.ofNat attrId), txId, none⟩])
        (by obtain ⟨j, hj, hjn⟩ := hexrest; exact ⟨j, hj, (happ j).trans hjn⟩)
      refine ⟨j, List.mem_cons_of_mem _ hj, (happ j).symm.trans hjn, ?_⟩
      unfold definedViewsAttrLoop
      rw [hlook]
      exact hjl

/-- Helper: with every ident in the list resolving, the attribute-reference
loop succeeds and only appends ref datoms of the target attribute `a`. -/
theorem definedViewsAttrLoop_ok (viewId txId a : Nat) (ha : a ≠ 1)
    (l : List String) (ds : List Datom)
    (hall : ∀ i ∈ l, mnemonic_attr_id ds i ≠ none) :
    ∃ extra, definedViewsAttrLoop viewId txId a l ds = .ok (ds ++ extra) ∧
      ∀ d ∈ extra, d.a = a := by
  induction l generalizing ds with
  | nil =>
    refine ⟨[], ?_, by simp⟩
    unfold definedViewsAttrLoop
    rw [List.append_nil]
  | cons i rest ih =>
    cases hlook : mnemonic_attr_id ds i with
    | none => exact absurd hlook (hall i (List.mem_cons_self _ _))
    | some attrId =>
      have happ : ∀ j, mnemonic_attr_id
          (ds ++ [⟨viewId, a, Val.num (Int.ofNat attrId), txId, none⟩]) j =
          mnemonic_attr_id ds j := by
        intro j
        exact mnemonic_attr_id_append ds _ j (by simp [ha])
      obtain ⟨extra, hok, hex⟩ := ih
        (ds ++ [⟨viewId, a, Val.num (Int.ofNat attrId), txId, none⟩])
        (by intro j hj; rw [happ j]; exact hall j (List.mem_cons_of_mem _ hj))
      refine ⟨⟨viewId, a, Val.num (Int.ofNat attrId), txId, none⟩ :: extra, ?_, ?_⟩
      · unfold definedViewsAttrLoop
        rw [hlook]
        dsimp only
        rw [hok]
        simp
      · intro d hd
        rcases List.mem_cons.mp hd with h0 | h0
        · subst h0; rfl
        · exact hex d h0

/-- Helper: bumping a partition's counter (an UPDATE keyed on `id`) does not
change which row an ident lookup finds, beyond the bump itself. -/
theorem partitions_find_map_update (l : List Partition) (pid : Nat)
    (x : String) :
    (l.map (fun q => if q.id = pid then { q with next_id := q.next_id + 1 }
        else q)).find? (fun q => q.ident = x) =
      (l.find? (fun q => q.ident = x)).map
        (fun q => if q.id = pid then { q with next_id := q.next_id + 1 }
          else q) := by
  rw [List.find?_map]
  have hcomp : ((fun q : Partition => decide (q.ident = x)) ∘ fun q =>
      if q.id = pid then { q with next_id := q.next_id + 1 } else q) =
      (fun q : Partition => decide (q.ident = x)) := by
    funext q
    by_cases h : q.id = pid <;> simp [h]
  rw [hcomp]

/-- Helper: the success equation of `mnemonic_allocate_entity` when the
partition row is found. -/
theorem mnemonic_allocate_entity_ok (db : DB) (pid : String) (p : Partition)
    (h : db.partitions.find? (fun q => q.ident = pid) = some p) :
    mnemonic_allocate_entity db pid =
      .ok (DB.mk (db.partitions.map (fun q =>
          if q.id = p.id then { q with next_id := q.next_id + 1 } else q))
          db.transactions db.datoms,
        (p.id <<< 48) ||| p.next_id) := by
  unfold mnemonic_allocate_entity
  rw [h]

/-- Helper: the success equation of `mnemonic_new_transaction` when the `tx`
partition row is found. -/
theorem mnemonic_new_transaction_ok_of_find (db : DB) (pt : Partition)
    (h : db.partitions.find? (fun q => q.ident = "tx") = some pt) :
    mnemonic_new_transaction db =
      .ok (DB.mk (db.partitions.map (fun q =>
          if q.id = pt.id then { q with next_id := q.next_id + 1 } else q))
          (db.transactions ++ [(pt.id <<< 48) ||| pt.next_id]) db.datoms,
        (pt.id <<< 48) ||| pt.next_id) := by
  unfold mnemonic_new_transaction
  rw [mnemonic_allocate_entity_ok db "tx" pt h]

/-- C9: inserting into the `mnemonic_defined_views` admin view raises an
error when the required-attributes array is NULL or empty; it raises
`Unknown attribute` when any listed required or optional attribute ident
resolves to no attribute definition (provided the `db` and `tx` partitions
exist, as they do from bootstrap on); and calling the regeneration procedure
directly for a view definition yielding no attribute rows raises no error,
emits a notice, and creates no view objects (`RegenOutcome.skipped`). -/
theorem mnemonic_defined_views_insert_validation :
    (∀ (db : DB) (name : String) (optAttrs : Option (List String))
        (doc : Option String),
      mnemonic_defined_views_insert db name none optAttrs doc =
        .error "View must have at least one required attribute" ∧
      mnemonic_defined_views_insert db name (some []) optAttrs doc =
        .error "View must have at least one required attribute") ∧
    (∀ (db : DB) (name : String) (reqList : List String)
        (optAttrs : Option (List String)) (doc : Option String)
        (pd pt : Partition),
      db.partitions.find? (fun q => q.ident = "db") = some pd →
      db.partitions.find? (fun q => q.ident = "tx") = some pt →
      reqList ≠ [] →
      (∃ i ∈ reqList ++ (match optAttrs with | none => [] | some l => l),
        mnemonic_attr_id db.datoms i = none) →
      ∃ j ∈ reqList ++ (match optAttrs with | none => [] | some l => l),
        mnemonic_attr_id db.datoms j = none ∧
        mnemonic_defined_views_insert db name (some reqList) optAttrs doc =
          .error ("Unknown attribute: " ++ j)) ∧
    mnemonic_regenerate_view [] = RegenOutcome.skipped := by
  refine ⟨?_, ?_, rfl⟩
  · intro db name optAttrs doc
    exact ⟨rfl, rfl⟩
  · intro db name reqList optAttrs doc pd pt hpd hpt hreq hex
    set u0 : Partition → Partition := fun q =>
      if q.id = pd.id then { q with next_id := q.next_id + 1 } else q with hu0
    set db1 : DB := DB.mk (db.partitions.map u0) db.transactions db.datoms
      with hdb1
    have hpt1 : db1.partitions.find? (fun q => q.ident = "tx") =
        some (u0 pt) := by
      rw [hdb1]
      show (db.partitions.map u0).find? (fun q => q.ident = "tx") = some (u0 pt)
      rw [hu0, partitions_find_map_update, hpt]
      rfl
    have htxeq := mnemonic_new_transaction_ok_of_find db1 (u0 pt) hpt1
    set vid := (pd.id <<< 48) ||| pd.next_id with hvid
    set tid := ((u0 pt).id <<< 48) ||| (u0 pt).next_id with htid
    set identDatom : Datom := ⟨vid, 10, Val.str name, tid, none⟩ with hidd
    set ds0 : List Datom := db.datoms ++ [identDatom] with hds0
    have hids0 : ∀ j, mnemonic_attr_id ds0 j = mnemonic_attr_id db.datoms j := by
      intro j
      rw [hds0]
      exact mnemonic_attr_id_append db.datoms [identDatom] j
        (by intro d hd; simp only [List.mem_singleton] at hd; subst hd
            rw [hidd]; simp)
    by_cases hreqex : ∃ i ∈ reqList, mnemonic_attr_id db.datoms i = none
    · obtain ⟨j, hj, hjn, hjl⟩ := definedViewsAttrLoop_unknown vid tid 11
        (by simp) reqList ds0
        (by obtain ⟨i, hi, hin⟩ := hreqex
            exact ⟨i, hi, (hids0 i).trans hin⟩)
      refine ⟨j, List.mem_append_left _ hj, (hids0 j).symm.trans hjn, ?_⟩
      unfold mnemonic_defined_views_insert
      dsimp only
      rw [if_neg hreq]
      rw [mnemonic_allocate_entity_ok db "db" pd hpd]
      dsimp only
      rw [htxeq]
      dsimp only
      rw [hjl]
    · have hallreq : ∀ i ∈ reqList, mnemonic_attr_id ds0 i ≠ none := by
        intro i hi hn
        exact hreqex ⟨i, hi, (hids0 i).symm.trans hn⟩
      obtain ⟨extra, hok, hexa⟩ := definedViewsAttrLoop_ok vid tid 11
        (by simp) reqList ds0 hallreq
      have hoptex : ∃ i ∈ (match optAttrs with | none => [] | some l => l),
          mnemonic_attr_id db.datoms i = none := by
        obtain ⟨i, hi, hin⟩ := hex
        rcases List.mem_append.mp hi with h0 | h0
        · exact absurd ⟨i, h0, hin⟩ hreqex
        · exact ⟨i, h0, hin⟩
      have hids1 : ∀ j, mnemonic_attr_id (ds0 ++ extra) j =
          mnemonic_attr_id db.datoms j := by
        intro j
        rw [mnemonic_attr_id_append ds0 extra j
          (by intro d hd; rw [hexa d hd]; simp)]
        exact hids0 j
      obtain ⟨j, hj, hjn, hjl⟩ := definedViewsAttrLoop_unknown vid tid 13
        (by simp) (match optAttrs with | none => [] | some l => l)
        (ds0 ++ extra)
        (by obtain ⟨i, hi, hin⟩ := hoptex
            exact ⟨i, hi, (hids1 i).trans hin⟩)
      refine ⟨j, List.mem_append_right _ hj, (hids1 j).symm.trans hjn, ?_⟩
      unfold mnemonic_defined_views_insert
      dsimp only
      rw [if_neg hreq]
      rw [mnemonic_allocate_entity_ok db "db" pd hpd]
      dsimp only
      rw [htxeq]
      dsimp only
      rw [hok]
      dsimp only
      rw [hjl]

/-- Witness for C9: on the bootstrapped store, defining a view whose only
required attribute ident is unknown raises `Unknown attribute`. -/
theorem mnemonic_defined_views_insert_validation_witness :
    ∃ j ∈ (["nope/missing"] ++
        (match (none : Option (List String)) with
          | none => [] | some l => l)),
      mnemonic_attr_id bootstrapDB.datoms j = none ∧
      mnemonic_defined_views_insert bootstrapDB "badview"
        (some ["nope/missing"]) none none =
        .error ("Unknown attribute: " ++ j) :=
  mnemonic_defined_views_insert_validation.2.1 bootstrapDB "badview"
    ["nope/missing"] none none ⟨0, "db", 300⟩ ⟨1, "tx", 1⟩
    (by decide) (by decide) (by decide)
    ⟨"nope/missing", by decide, by decide⟩

/-- Counterexample for C3 as stated: in a view whose required attributes are
`t/a` (cardinality one, the anchor) and `t/b` (cardinality many), an entity
holding a current datom only for `t/a` still appears as a row of the
generated `V_current` - the generator emits every non-anchor
cardinality-many attribute as `LEFT JOIN LATERAL` array aggregation, even
when it is required, so the entity is not filtered out despite possessing no
non-retracted datom for the required attribute `t/b`. -/
theorem generate_view_current_required_many_counterexample :
    (∃ r ∈ mnemonic_generate_view_current
        [⟨1, 301, Val.str "x", 0, none⟩]
        [⟨"t/a", 301, ValueType.text, false, true⟩,
         ⟨"t/b", 302, ValueType.text, true, true⟩], r.id = 1) ∧
    currentDatoms [⟨1, 301, Val.str "x", 0, none⟩] 302 1 = [] ∧
    (⟨"t/b", 302, ValueType.text, true, true⟩ : ViewAttr).required = true := by
  refine ⟨⟨⟨1, [Col.single (some (Val.str "x")), Col.arr none]⟩, ?_, rfl⟩,
    by decide, rfl⟩
  decide

/-- Helper: an entity contributes an anchor row exactly when it has a
current datom for the anchor attribute. -/
theorem anchorRows_mem_iff (ds : List Datom) (a0 : ViewAttr) (eid : Nat) :
    (∃ r ∈ anchorRows ds a0, r.id = eid) ↔
      currentDatoms ds a0.attrId eid ≠ [] := by
  unfold anchorRows currentDatoms
  constructor
  · rintro ⟨r, hr, hid⟩
    obtain ⟨d, hd, hrd⟩ := List.mem_map.mp hr
    have hde : d.e = eid := by
      by_cases hm : a0.many
      · rw [if_pos hm] at hrd; rw [← hrd] at hid; exact hid
      · rw [if_neg hm] at hrd; rw [← hrd] at hid; exact hid
    refine List.ne_nil_of_mem
      (a := d) (List.mem_filter.mpr ⟨(List.mem_filter.mp hd).1, ?_⟩)
    have := (List.mem_filter.mp hd).2
    simp only [Bool.and_eq_true, decide_eq_true_eq] at this
    simp [this.1, this.2, hde]
  · intro hne
    obtain ⟨d, hd⟩ := List.exists_mem_of_ne_nil _ hne
    have hmem := (List.mem_filter.mp hd).1
    have hprops := (List.mem_filter.mp hd).2
    simp only [Bool.and_eq_true, decide_eq_true_eq] at hprops
    obtain ⟨⟨ha, he⟩, hrb⟩ := hprops
    have hdf : d ∈ ds.filter (fun d => d.a = a0.attrId && d.retracted_by.isNone) :=
      List.mem_filter.mpr ⟨hmem, by simp [ha, hrb]⟩
    by_cases hm : a0.many
    · exact ⟨_, List.mem_map.mpr ⟨d, hdf, by rw [if_pos hm]⟩, he⟩
    · exact ⟨_, List.mem_map.mpr ⟨d, hdf, by rw [if_neg hm]⟩, he⟩

/-- Helper: one generator join step keeps an entity's rows present exactly
when the joined attribute is not a required cardinality-one attribute the
entity lacks; cardinality-many and optional attributes never filter. -/
theorem stepAttr_mem_iff (ds : List Datom) (va : ViewAttr)
    (rows : List ViewRow) (eid : Nat) :
    (∃ r ∈ stepAttr ds va rows, r.id = eid) ↔
      ((∃ r ∈ rows, r.id = eid) ∧
        (va.required = true → va.many = false →
          currentDatoms ds va.attrId eid ≠ [])) := by
  unfold stepAttr
  by_cases hm : va.many
  · rw [if_pos hm]
    constructor
    · rintro ⟨r, hr, hid⟩
      obtain ⟨r0, hr0, hrr⟩ := List.mem_map.mp hr
      refine ⟨⟨r0, hr0, by rw [← hrr] at hid; exact hid⟩, ?_⟩
      intro _ hmany
      rw [hm] at hmany
      exact absurd hmany (by simp)
    · rintro ⟨⟨r, hr, hid⟩, _⟩
      exact ⟨_, List.mem_map.mpr ⟨r, hr, rfl⟩, hid⟩
  · rw [if_neg hm]
    by_cases hreq : va.required
    · rw [if_pos hreq]
      constructor
      · rintro ⟨r, hr, hid⟩
        obtain ⟨r0, hr0, hrmem⟩ := List.mem_flatMap.mp hr
        obtain ⟨d, hd, hdr⟩ := List.mem_map.mp hrmem
        have hid0 : r0.id = eid := by rw [← hdr] at hid; exact hid
        refine ⟨⟨r0, hr0, hid0⟩, fun _ _ => ?_⟩
        intro hemp
        rw [hid0] at hd
        rw [hemp] at hd
        exact absurd hd (by simp)
      · rintro ⟨⟨r, hr, hid⟩, hne⟩
        have hne' := hne hreq (by simpa using hm)
        obtain ⟨d, hd⟩ := List.exists_mem_of_ne_nil _ hne'
        refine ⟨_, List.mem_flatMap.mpr ⟨r, hr, List.mem_map.mpr
          ⟨d, by rw [hid]; exact hd, rfl⟩⟩, hid⟩
    · rw [if_neg hreq]
      constructor
      · rintro ⟨r, hr, hid⟩
        obtain ⟨r0, hr0, hrmem⟩ := List.mem_flatMap.mp hr
        refine ⟨⟨r0, hr0, ?_⟩, fun habs => absurd habs (by simp [hreq])⟩
        cases hcd : currentDatoms ds va.attrId r0.id with
        | nil =>
          rw [hcd] at hrmem
          simp only [List.mem_singleton] at hrmem
          rw [hrmem] at hid
          exact hid
        | cons d0 drest =>
          rw [hcd] at hrmem
          obtain ⟨d, hd, hdr⟩ := List.mem_map.mp hrmem
          rw [← hdr] at hid
          exact hid
      · rintro ⟨⟨r, hr, hid⟩, _⟩
        cases hcd : currentDatoms ds va.attrId r.id with
        | nil =>
          refine ⟨{ r with cols := r.cols ++ [Col.single none] },
            List.mem_flatMap.mpr ⟨r, hr, ?_⟩, hid⟩
          rw [hcd]
          exact List.mem_singleton.mpr rfl
        | cons d0 drest =>
          refine ⟨{ r with cols := r.cols ++ [Col.single (some d0.v)] },
            List.mem_flatMap.mpr ⟨r, hr, ?_⟩, hid⟩
          rw [hcd]
          exact List.mem_map.mpr ⟨d0, List.mem_cons_self _ _, rfl⟩

/-- Helper: folding the generator's join steps over the non-anchor
attributes keeps an entity's rows present exactly when the entity has a
current datom for every required cardinality-one attribute among them. -/
theorem stepAttr_foldl_mem_iff (ds : List Datom) (rest : List ViewAttr)
    (rows : List ViewRow) (eid : Nat) :
    (∃ r ∈ rest.foldl (fun rows va => stepAttr ds va rows) rows, r.id = eid) ↔
      ((∃ r ∈ rows, r.id = eid) ∧
        ∀ va ∈ rest, va.required = true → va.many = false →
          currentDatoms ds va.attrId eid ≠ []) := by
  induction rest generalizing rows with
  | nil => simp
  | cons va rest ih =>
    rw [List.foldl_cons, ih (stepAttr ds va rows), stepAttr_mem_iff]
    constructor
    · rintro ⟨⟨hex, hva⟩, hrest⟩
      refine ⟨hex, ?_⟩
      intro va' hva' hreq hone
      rcases List.mem_cons.mp hva' with h0 | h0
      · subst h0; exact hva hreq hone
      · exact hrest va' h0 hreq hone
    · rintro ⟨hex, hall⟩
      exact ⟨⟨hex, hall va (List.mem_cons_self _ _)⟩,
        fun va' h0 => hall va' (List.mem_cons_of_mem _ h0)⟩

/-- Helper: each generator join step extends every row by exactly one
column, preserving the row's entity id, and the appended column is a NULL
scalar whenever the step's attribute is optional, cardinality one, and the
entity has no current datom for it. -/
theorem stepAttr_cols (ds : List Datom) (va : ViewAttr)
    (rows : List ViewRow) :
    ∀ r' ∈ stepAttr ds va rows, ∃ r ∈ rows, r'.id = r.id ∧
      ∃ c, r'.cols = r.cols ++ [c] ∧
        (va.required = false → va.many = false →
          currentDatoms ds va.attrId r.id = [] → c = Col.single none) := by
  intro r' hr'
  unfold stepAttr at hr'
  by_cases hm : va.many
  · rw [if_pos hm] at hr'
    obtain ⟨r, hr, hrr⟩ := List.mem_map.mp hr'
    exact ⟨r, hr, by rw [← hrr], ⟨_, by rw [← hrr],
      fun _ hmf => absurd (hm.symm.trans hmf) (by simp)⟩⟩
  · rw [if_neg hm] at hr'
    by_cases hreq : va.required
    · rw [if_pos hreq] at hr'
      obtain ⟨r, hr, hrmem⟩ := List.mem_flatMap.mp hr'
      obtain ⟨d, hd, hdr⟩ := List.mem_map.mp hrmem
      exact ⟨r, hr, by rw [← hdr], ⟨_, by rw [← hdr],
        fun hrf => absurd (hreq.symm.trans hrf) (by simp)⟩⟩
    · rw [if_neg hreq] at hr'
      obtain ⟨r, hr, hrmem⟩ := List.mem_flatMap.mp hr'
      cases hcd : currentDatoms ds va.attrId r.id with
      | nil =>
        rw [hcd] at hrmem
        simp only [List.mem_singleton] at hrmem
        exact ⟨r, hr, by rw [hrmem], ⟨Col.single none, by rw [hrmem],
          fun _ _ _ => rfl⟩⟩
      | cons d0 drest =>
        rw [hcd] at hrmem
        obtain ⟨d, hd, hdr⟩ := List.mem_map.mp hrmem
        refine ⟨r, hr, by rw [← hdr], ⟨Col.single (some d.v), by rw [← hdr],
          fun _ _ hemp => ?_⟩⟩
        rw [hemp] at hcd
        exact absurd hcd (by simp)

/-- Helper: folding the generator's join steps appends one column per
attribute to every surviving row, and emits a NULL scalar at the position of
every optional cardinality-one attribute the row's entity lacks. -/
theorem stepAttr_foldl_cols (ds : List Datom) (rest : List ViewAttr)
    (rows : List ViewRow) :
    ∀ r' ∈ rest.foldl (fun rows va => stepAttr ds va rows) rows,
      ∃ r ∈ rows, r'.id = r.id ∧
        ∃ suffix, r'.cols = r.cols ++ suffix ∧
          suffix.length = rest.length ∧
          ∀ i (hi : i < rest.length), (rest[i]).required = false →
            (rest[i]).many = false →
            currentDatoms ds (rest[i]).attrId r.id = [] →
            suffix[i]? = some (Col.single none) := by
  induction rest generalizing rows with
  | nil =>
    intro r' hr'
    refine ⟨r', hr', rfl, [], by simp, rfl, ?_⟩
    intro i hi
    exact absurd hi (by simp)
  | cons va rest ih =>
    intro r' hr'
    rw [List.foldl_cons] at hr'
    obtain ⟨rmid, hrmid, hid1, suffix, hcols1, hlen1, hpos1⟩ :=
      ih (stepAttr ds va rows) r' hr'
    obtain ⟨r, hr, hid2, c, hc, hcnull⟩ := stepAttr_cols ds va rows rmid hrmid
    refine ⟨r, hr, hid1.trans hid2, c :: suffix, ?_, by simp [hlen1], ?_⟩
    · rw [hcols1, hc, List.append_assoc]
      rfl
    · intro i hi hreqf hmf hemp
      cases i with
      | zero =>
        simp only [List.getElem_cons_zero] at hreqf hmf hemp
        rw [List.getElem?_cons_zero, hcnull hreqf hmf hemp]
      | succ j =>
        simp only [List.getElem_cons_succ] at hreqf hmf hemp
        have hj : j < rest.length := by simpa using hi
        rw [← hid2] at hemp
        rw [List.getElem?_cons_succ]
        exact hpos1 j hj hreqf hmf hemp

/-- C3 (amended): for every view definition and datom store, an entity
appears as a row of the generated `V_current` iff it has at least one
non-retracted datom for the anchor attribute (the first attribute in the
generator's emission order: required attributes first, ordered by ident) and
for every other *required cardinality-one* attribute of the view; required
cardinality-many non-anchor attributes are emitted as `LEFT JOIN LATERAL`
array aggregation and do not filter; optional attributes join with left
semantics, and every row of an entity missing an optional cardinality-one
attribute carries NULL in that attribute's column (position `i + 1` for the
`i`-th non-anchor attribute, after the anchor's column block of width 1). -/
theorem mnemonic_generate_view_current_correct (ds : List Datom)
    (a0 : ViewAttr) (rest : List ViewAttr) (eid : Nat) :
    ((∃ r ∈ mnemonic_generate_view_current ds (a0 :: rest), r.id = eid) ↔
      (currentDatoms ds a0.attrId eid ≠ [] ∧
        ∀ va ∈ rest, va.required = true → va.many = false →
          currentDatoms ds va.attrId eid ≠ [])) ∧
    (∀ r ∈ mnemonic_generate_view_current ds (a0 :: rest),
      r.cols.length = rest.length + 1 ∧
      ∀ i (hi : i < rest.length), (rest[i]).required = false →
        (rest[i]).many = false →
        currentDatoms ds (rest[i]).attrId r.id = [] →
        r.cols[i + 1]? = some (Col.single none)) := by
  constructor
  · unfold mnemonic_generate_view_current
    rw [stepAttr_foldl_mem_iff, anchorRows_mem_iff]
  · intro r hr
    unfold mnemonic_generate_view_current at hr
    obtain ⟨ra, hra, hid, suffix, hcols, hlen, hpos⟩ :=
      stepAttr_foldl_cols ds rest (anchorRows ds a0) r hr
    have hacols : ra.cols.length = 1 := by
      unfold anchorRows at hra
      obtain ⟨d, hd, hrd⟩ := List.mem_map.mp hra
      by_cases hm : a0.many
      · rw [if_pos hm] at hrd; rw [← hrd]; rfl
      · rw [if_neg hm] at hrd; rw [← hrd]; rfl
    constructor
    · rw [hcols, List.length_append, hacols, hlen]
      omega
    · intro i hi hreqf hmf hemp
      rw [hcols, List.getElem?_append_right (by omega)]
      have hsub : i + 1 - ra.cols.length = i := by
        rw [hacols]
        omega
      rw [hsub]
      rw [hid] at hemp
      exact hpos i hi hreqf hmf hemp

/-- Witness for the amended C3: in a view over required `t/a` and optional
`t/o`, the single row of an entity holding only `t/a` carries NULL in the
`t/o` column. -/
theorem mnemonic_generate_view_current_correct_witness :
    (⟨1, [Col.single (some (Val.str "x")), Col.single none]⟩ : ViewRow).cols[0 + 1]? =
      some (Col.single none) :=
  ((mnemonic_generate_view_current_correct
      [⟨1, 301, Val.str "x", 0, none⟩]
      ⟨"t/a", 301, ValueType.text, false, true⟩
      [⟨"t/o", 303, ValueType.text, false, false⟩] 1).2
    ⟨1, [Col.single (some (Val.str "x")), Col.single none]⟩
    (by decide)).2 0 (by decide) (by decide) (by decide) (by decide)

